import Mathlib

/-!
Verification of the math evaluator in `crates/typst/src/eval/math.rs`.

The file under scrutiny implements `Eval` for the math-mode AST nodes
(`ast::Math`, `ast::Opening`, `ast::Closing`, `ast::MathIdent`,
`ast::MathAlignPoint`, `ast::MathDelimited`, `ast::MathAttach`,
`ast::MathPrimes`, `ast::MathFrac`, `ast::MathRoot`) plus the helper
`ExprExt::eval_display`, and leaves the runtime math parser as a stub
(`_runtime_math_parse`).

We embed the AST nodes as an inductive `Expr` whose constructors carry
exactly the data the Rust accessors expose, embed the produced
`Content` elements as an inductive, and translate each `eval` method.
The Rust methods receive `&mut Vm`; we model that by threading the `Vm`
value explicitly, so that "the evaluator does not mutate the Vm" is a
provable statement rather than an assumption.  Sub-expressions that are
not math nodes are evaluated by the general evaluator, which lives
outside the excerpt; the `Expr.ext` constructor carries that externally
determined outcome as part of the input.
-/

namespace TypstMath

/-- A source span, modelled as a plain index. -/
abbrev Span := Nat

/-- The content elements constructed by `eval/math.rs`:
`TextElem`, `AlignPointElem`, `PrimesElem`, `LrElem`, `AttachElem`
(with its `t`, `tr` and `b` slots as pushed by `push_t`/`push_tr`/`push_b`),
`FracElem`, `RootElem`, content sequences, and span-annotated content
(`Content::spanned`). -/
inductive Content where
  | text (s : String)
  | alignPointElem
  | primesElem (count : Nat)
  | lrElem (body : Content)
  | attachElem (base : Content) (t tr b : Option Content)
  | fracElem (num denom : Content)
  | rootElem (index : Option Content) (radicand : Content)
  | seq (children : List Content)
  | spanned (inner : Content) (span : Span)

/-- View a content value as a list of elements: a sequence exposes its
children, anything else is a singleton. -/
def Content.toList : Content → List Content
  | .seq l => l
  | c => [c]

/-- Modelled from the spec: `Content::sequence` from the foundations layer
(absent from the excerpt) — "build each child, concatenate in order into a
composite element". -/
def Content.sequence (l : List Content) : Content := .seq l

/-- Modelled from the spec: `+` on `Content` (foundations layer, absent from
the excerpt) — concatenation of content, merging sequences in order. -/
def Content.add (a b : Content) : Content := .seq (a.toList ++ b.toList)

/-- Whether a content value is span-annotated at the top level. -/
def Content.isSpanned : Content → Bool
  | .spanned _ _ => true
  | _ => false

/-- Values produced by evaluation.  `Value::Content` wraps built content;
`Value::Str` stands for the non-content values a math identifier or an
external sub-expression may resolve to. -/
inductive Value where
  | content (c : Content)
  | str (s : String)

/-- Modelled from the spec: the display coercion (`Value -> ContentElement`)
supplied by the general evaluator (spec §6) — content passes through
unchanged, other values render as their textual representation. -/
def Value.display : Value → Content
  | .content c => c
  | .str s => .text s

/-- The errors the excerpt can produce or propagate: the unresolved
identifier failure of `MathIdent::eval` (span attached via `.at(self.span())`)
and externally produced errors propagated from sub-expressions. -/
inductive Err where
  | unresolvedIdentifier (name : String) (span : Span)
  | external (message : String) (span : Span)

/-- The evaluation context.  Of the Rust `Vm` the excerpt only uses
`vm.scopes` for math-scope lookups; we model that component. -/
structure Vm where
  scope : String → Option Value

/-- Modelled from the spec: `Scopes::get_in_math` (absent from the excerpt) —
"Pure lookup; fails ... when absent" (spec §4.3).  We return the optional
value; `MathIdent::eval` turns absence into the error. -/
def Vm.getInMath (vm : Vm) (name : String) : Option Value := vm.scope name

/-- The math AST nodes of the excerpt.  Each constructor carries exactly the
data the corresponding Rust accessors expose:
* `math` — `Math::exprs()`;
* `opening`/`closing` — `delim()`;
* `mathIdent` — the identifier text;
* `mathDelimited` — `open()`, `body()` (a `Math` node, i.e. its expression
  list) and `close()`;
* `mathAttach` — `base()`, `top()`, `primes()` (a `MathPrimes` child, i.e.
  its count) and `bottom()`;
* `mathPrimes` — `count()`;
* `mathFrac` — `num()` and `denom()`;
* `mathRoot` — `index()` (an optional number read off the radical glyph)
  and `radicand()`;
* `ext` — a sub-expression handled by the general evaluator outside the
  excerpt, carrying its externally determined outcome.
Every node carries its source span (`AstNode::span`). -/
inductive Expr where
  | math (exprs : List Expr) (span : Span)
  | opening (delim : String) (span : Span)
  | closing (delim : String) (span : Span)
  | mathIdent (name : String) (span : Span)
  | mathAlignPoint (span : Span)
  | mathDelimited (openDelim : Expr) (body : List Expr) (closeDelim : Expr) (span : Span)
  | mathAttach (base : Expr) (top : Option Expr) (primes : Option Nat)
      (bottom : Option Expr) (span : Span)
  | mathPrimes (count : Nat) (span : Span)
  | mathFrac (num denom : Expr) (span : Span)
  | mathRoot (index : Option Nat) (radicand : Expr) (span : Span)
  | ext (result : Except Err Value) (span : Span)

/-- `AstNode::span` for the embedded nodes. -/
def Expr.span : Expr → Span
  | .math _ s => s
  | .opening _ s => s
  | .closing _ s => s
  | .mathIdent _ s => s
  | .mathAlignPoint s => s
  | .mathDelimited _ _ _ s => s
  | .mathAttach _ _ _ _ s => s
  | .mathPrimes _ s => s
  | .mathFrac _ _ s => s
  | .mathRoot _ _ s => s
  | .ext _ s => s

mutual

/-- The `Eval` impls of `eval/math.rs`, dispatched over the node kind.
The `&mut Vm` parameter is threaded explicitly; a result is the produced
`Value` together with the Vm as the method left it. -/
def eval : Expr → Vm → Except Err (Value × Vm)
  | .math exprs _, vm =>
      match evalList exprs vm with
      | .error err => .error err
      | .ok (cs, vm1) => .ok (.content (Content.sequence cs), vm1)
  | .opening d _, vm => .ok (.content (.text d), vm)
  | .closing d _, vm => .ok (.content (.text d), vm)
  | .mathIdent name sp, vm =>
      match vm.getInMath name with
      | some v => .ok (v, vm)
      | none => .error (.unresolvedIdentifier name sp)
  | .mathAlignPoint _, vm => .ok (.content .alignPointElem, vm)
  | .mathDelimited o body c _, vm =>
      match evalDisplay o vm with
      | .error err => .error err
      | .ok (oc, vm1) =>
          match evalList body vm1 with
          | .error err => .error err
          | .ok (bcs, vm2) =>
              match evalDisplay c vm2 with
              | .error err => .error err
              | .ok (cc, vm3) =>
                  .ok (.content
                    (.lrElem (Content.add (Content.add oc (Content.sequence bcs)) cc)), vm3)
  | .mathAttach base top primes bottom _, vm =>
      match evalDisplay base vm with
      | .error err => .error err
      | .ok (bc, vm1) =>
          match evalAttachTops top primes vm1 with
          | .error err => .error err
          | .ok ((t, tr), vm2) => evalAttachBottom bc t tr bottom vm2
  | .mathPrimes n _, vm => .ok (.content (.primesElem n), vm)
  | .mathFrac num denom _, vm =>
      match evalDisplay num vm with
      | .error err => .error err
      | .ok (nc, vm1) =>
          match evalDisplay denom vm1 with
          | .error err => .error err
          | .ok (dc, vm2) => .ok (.content (.fracElem nc dc), vm2)
  | .mathRoot index radicand _, vm =>
      match evalDisplay radicand vm with
      | .error err => .error err
      | .ok (rc, vm1) =>
          .ok (.content (.rootElem (index.map fun i => Content.text (toString i)) rc), vm1)
  | .ext result _, vm =>
      match result with
      | .ok v => .ok (v, vm)
      | .error err => .error err
termination_by e _ => (sizeOf e, 0)

/-- The superscript step of `MathAttach::eval`:
`if let Some(expr) = self.top() { elem.push_t(Some(expr.eval_display(vm)?)); }
else if let Some(primes) = self.primes() { elem.push_tr(Some(primes.eval(vm)?)); }`.
Returns the resulting `t` and `tr` slots. -/
def evalAttachTops (top : Option Expr) (primes : Option Nat) (vm : Vm) :
    Except Err ((Option Content × Option Content) × Vm) :=
  match top with
  | some e =>
      match evalDisplay e vm with
      | .error err => .error err
      | .ok (tc, vm1) => .ok ((some tc, none), vm1)
  | none =>
      match primes with
      | some n => .ok ((none, some (Content.primesElem n)), vm)
      | none => .ok ((none, none), vm)
termination_by (sizeOf top, 0)

/-- The subscript step of `MathAttach::eval`:
`if let Some(expr) = self.bottom() { elem.push_b(Some(expr.eval_display(vm)?)); }`,
followed by `Ok(elem.pack())`. -/
def evalAttachBottom (bc : Content) (t tr : Option Content) (bottom : Option Expr)
    (vm : Vm) : Except Err (Value × Vm) :=
  match bottom with
  | some e =>
      match evalDisplay e vm with
      | .error err => .error err
      | .ok (bb, vm1) => .ok (.content (.attachElem bc t tr (some bb)), vm1)
  | none => .ok (.content (.attachElem bc t tr none), vm)
termination_by (sizeOf bottom, 0)

/-- `ExprExt::eval_display`: evaluate, display-coerce, and attach the
expression's own span. -/
def evalDisplay (e : Expr) (vm : Vm) : Except Err (Content × Vm) :=
  match eval e vm with
  | .error err => .error err
  | .ok (v, vm1) => .ok (.spanned v.display e.span, vm1)
termination_by (sizeOf e, 1)

/-- `self.exprs().map(|expr| expr.eval_display(vm)).collect::<SourceResult<Vec<_>>>()`:
evaluate-and-display each expression in order, stopping at the first error. -/
def evalList : List Expr → Vm → Except Err (List Content × Vm)
  | [], vm => .ok ([], vm)
  | e :: rest, vm =>
      match evalDisplay e vm with
      | .error err => .error err
      | .ok (c, vm1) =>
          match evalList rest vm1 with
          | .error err => .error err
          | .ok (cs, vm2) => .ok (c :: cs, vm2)
termination_by l _ => (sizeOf l, 0)

end

/-- Modelled from the spec: the subset of the parsed expression tree
(`ExprNode`, spec §3) needed to state the call-vs-juxtaposition tie-break.
The runtime parser is left as the stub `_runtime_math_parse` in the source;
only its intended behavior is documented. -/
inductive ExprNode where
  | atom (text : String)
  | group (inner : ExprNode)
  | call (callee : ExprNode) (args : List ExprNode)
  | sequence (children : List ExprNode)

/-- Modelled from the spec: the function-call tie-break of the expression
parser (spec §4.2) for an atom immediately followed, with no intervening
space, by a parenthesized group: "a multi-character atom immediately followed
(no intervening space) by an opening-paren group is parsed as `Call`; a
single-character atom followed by a paren group is parsed as plain
juxtaposition of two siblings".  The source comment above
`impl Eval for ast::MathDelimited` fixes the same behavior: single characters
like `$f(x)$` always parse as text plus a delimited group, while
multi-character values like `$pi(x)$` parse as a function call. -/
def callTieBreak (atomText : String) (arg : ExprNode) : ExprNode :=
  if 1 < atomText.length then .call (.atom atomText) [arg]
  else .sequence [.atom atomText, .group arg]

/-- A small concrete scope used by the closed instances below: it maps the
single identifier `x` to the string value `ex`. -/
def vmX : Vm := ⟨fun n => if n = "x" then some (.str "ex") else none⟩

end TypstMath

namespace TypstMath

/-! ### The evaluator never mutates the Vm

Every `eval` method of the excerpt only reads `vm` (the single use is the
math-scope lookup in `MathIdent::eval`); mutation of the threaded state
never occurs.  This is the key fact behind the purity/memoization
requirement of spec §5. -/

theorem evalFamily_vm_eq :
    (∀ e vm, ∀ (v : Value) (vm' : Vm), eval e vm = .ok (v, vm') → vm' = vm)
  ∧ (∀ bc t tr bottom vm, ∀ (v : Value) (vm' : Vm),
        evalAttachBottom bc t tr bottom vm = .ok (v, vm') → vm' = vm)
  ∧ (∀ e vm, ∀ (c : Content) (vm' : Vm), evalDisplay e vm = .ok (c, vm') → vm' = vm)
  ∧ (∀ top primes vm, ∀ (r : Option Content × Option Content) (vm' : Vm),
        evalAttachTops top primes vm = .ok (r, vm') → vm' = vm)
  ∧ (∀ l vm, ∀ (cs : List Content) (vm' : Vm), evalList l vm = .ok (cs, vm') → vm' = vm) := by
  apply eval.mutual_induct
    (fun e vm => ∀ (v : Value) (vm' : Vm), eval e vm = .ok (v, vm') → vm' = vm)
    (fun bc t tr bottom vm => ∀ (v : Value) (vm' : Vm),
      evalAttachBottom bc t tr bottom vm = .ok (v, vm') → vm' = vm)
    (fun e vm => ∀ (c : Content) (vm' : Vm), evalDisplay e vm = .ok (c, vm') → vm' = vm)
    (fun top primes vm => ∀ (r : Option Content × Option Content) (vm' : Vm),
      evalAttachTops top primes vm = .ok (r, vm') → vm' = vm)
    (fun l vm => ∀ (cs : List Content) (vm' : Vm), evalList l vm = .ok (cs, vm') → vm' = vm)
  · intro exprs span vm err h1 _ v vm' h
    simp only [eval, h1] at h
    exact Except.noConfusion h
  · intro exprs span vm cs vm1 h1 ih v vm' h
    simp only [eval, h1, Except.ok.injEq, Prod.mk.injEq] at h
    exact h.2.symm.trans (ih cs vm1 h1)
  · intro d span vm v vm' h
    simp only [eval, Except.ok.injEq, Prod.mk.injEq] at h
    exact h.2.symm
  · intro d span vm v vm' h
    simp only [eval, Except.ok.injEq, Prod.mk.injEq] at h
    exact h.2.symm
  · intro name sp vm v0 hsome v vm' h
    simp only [eval, hsome, Except.ok.injEq, Prod.mk.injEq] at h
    exact h.2.symm
  · intro name sp vm hnone v vm' h
    simp only [eval, hnone] at h
    exact Except.noConfusion h
  · intro span vm v vm' h
    simp only [eval, Except.ok.injEq, Prod.mk.injEq] at h
    exact h.2.symm
  · intro o body c span vm err h1 _ v vm' h
    simp only [eval, h1] at h
    exact Except.noConfusion h
  · intro o body c span vm cc vm3 h1 err h2 _ _ v vm' h
    simp only [eval, h1, h2] at h
    exact Except.noConfusion h
  · intro o body c span vm cc vm3 h1 cs vm1 h2 err h3 _ _ _ v vm' h
    simp only [eval, h1, h2, h3] at h
    exact Except.noConfusion h
  · intro o body c span vm cc vm3 h1 cs vm1 h2 cc2 vm32 h3 ih3o ih5 ih3c v vm' h
    simp only [eval, h1, h2, h3, Except.ok.injEq, Prod.mk.injEq] at h
    exact ((h.2.symm.trans (ih3c cc2 vm32 h3)).trans (ih5 cs vm1 h2)).trans (ih3o cc vm3 h1)
  · intro base top primes bottom span vm err h1 _ v vm' h
    simp only [eval, h1] at h
    exact Except.noConfusion h
  · intro base top primes bottom span vm bc vm1 h1 err h2 _ _ v vm' h
    simp only [eval, h1, h2] at h
    exact Except.noConfusion h
  · intro base top primes bottom span vm bc vm1 h1 t tr vm2 h2 ih3 ih4 ih2 v vm' h
    simp only [eval, h1, h2] at h
    exact ((ih2 v vm' h).trans (ih4 (t, tr) vm2 h2)).trans (ih3 bc vm1 h1)
  · intro n span vm v vm' h
    simp only [eval, Except.ok.injEq, Prod.mk.injEq] at h
    exact h.2.symm
  · intro num denom span vm err h1 _ v vm' h
    simp only [eval, h1] at h
    exact Except.noConfusion h
  · intro num denom span vm nc vm1 h1 err h2 _ _ v vm' h
    simp only [eval, h1, h2] at h
    exact Except.noConfusion h
  · intro num denom span vm nc vm1 h1 dc vm2 h2 ih3n ih3d v vm' h
    simp only [eval, h1, h2, Except.ok.injEq, Prod.mk.injEq] at h
    exact (h.2.symm.trans (ih3d dc vm2 h2)).trans (ih3n nc vm1 h1)
  · intro index radicand span vm err h1 _ v vm' h
    simp only [eval, h1] at h
    exact Except.noConfusion h
  · intro index radicand span vm rc vm1 h1 ih v vm' h
    simp only [eval, h1, Except.ok.injEq, Prod.mk.injEq] at h
    exact h.2.symm.trans (ih rc vm1 h1)
  · intro span vm v0 v vm' h
    simp only [eval, Except.ok.injEq, Prod.mk.injEq] at h
    exact h.2.symm
  · intro span vm err v vm' h
    simp only [eval] at h
    exact Except.noConfusion h
  · intro bc t tr vm e err h1 _ v vm' h
    simp only [evalAttachBottom, h1] at h
    exact Except.noConfusion h
  · intro bc t tr vm e cc vm3 h1 ih v vm' h
    simp only [evalAttachBottom, h1, Except.ok.injEq, Prod.mk.injEq] at h
    exact h.2.symm.trans (ih cc vm3 h1)
  · intro bc t tr vm v vm' h
    simp only [evalAttachBottom, Except.ok.injEq, Prod.mk.injEq] at h
    exact h.2.symm
  · intro e vm err h1 _ c vm' h
    simp only [evalDisplay, h1] at h
    exact Except.noConfusion h
  · intro e vm v vm1 h1 ih c vm' h
    simp only [evalDisplay, h1, Except.ok.injEq, Prod.mk.injEq] at h
    exact h.2.symm.trans (ih v vm1 h1)
  · intro primes vm e err h1 _ r vm' h
    simp only [evalAttachTops, h1] at h
    exact Except.noConfusion h
  · intro primes vm e cc vm3 h1 ih r vm' h
    simp only [evalAttachTops, h1, Except.ok.injEq, Prod.mk.injEq] at h
    exact h.2.symm.trans (ih cc vm3 h1)
  · intro vm n r vm' h
    simp only [evalAttachTops, Except.ok.injEq, Prod.mk.injEq] at h
    exact h.2.symm
  · intro vm r vm' h
    simp only [evalAttachTops, Except.ok.injEq, Prod.mk.injEq] at h
    exact h.2.symm
  · intro vm cs vm' h
    simp only [evalList, Except.ok.injEq, Prod.mk.injEq] at h
    exact h.2.symm
  · intro e rest vm err h1 _ cs vm' h
    simp only [evalList, h1] at h
    exact Except.noConfusion h
  · intro e rest vm cc vm3 h1 err h2 _ _ cs vm' h
    simp only [evalList, h1, h2] at h
    exact Except.noConfusion h
  · intro e rest vm cc vm3 h1 cs2 vm1 h2 ih3 ih5 cs vm' h
    simp only [evalList, h1, h2, Except.ok.injEq, Prod.mk.injEq] at h
    exact (h.2.symm.trans (ih5 cs2 vm1 h2)).trans (ih3 cc vm3 h1)

/-- `eval` leaves the Vm exactly as it found it. -/
theorem eval_vm_eq (e : Expr) (vm : Vm) (v : Value) (vm' : Vm)
    (h : eval e vm = .ok (v, vm')) : vm' = vm :=
  evalFamily_vm_eq.1 e vm v vm' h

/-- `evalDisplay` leaves the Vm exactly as it found it. -/
theorem evalDisplay_vm_eq (e : Expr) (vm : Vm) (c : Content) (vm' : Vm)
    (h : evalDisplay e vm = .ok (c, vm')) : vm' = vm :=
  evalFamily_vm_eq.2.2.1 e vm c vm' h

/-- `evalList` leaves the Vm exactly as it found it. -/
theorem evalList_vm_eq (l : List Expr) (vm : Vm) (cs : List Content) (vm' : Vm)
    (h : evalList l vm = .ok (cs, vm')) : vm' = vm :=
  evalFamily_vm_eq.2.2.2.2 l vm cs vm' h

end TypstMath
namespace TypstMath

/-! ### Helper lemmas -/

/-- Evaluating a concatenated expression list runs the first part and then the
second from the resulting state, appending the produced content in order. -/
theorem evalList_append (l1 l2 : List Expr) (vm : Vm) :
    evalList (l1 ++ l2) vm =
      match evalList l1 vm with
      | .error err => .error err
      | .ok (cs, vm1) =>
          match evalList l2 vm1 with
          | .error err => .error err
          | .ok (cs2, vm2) => .ok (cs ++ cs2, vm2) := by
  induction l1 generalizing vm with
  | nil =>
      simp only [List.nil_append, evalList]
      cases h : evalList l2 vm with
      | error err => rfl
      | ok p => rfl
  | cons e rest ih =>
      simp only [List.cons_append, evalList, ih]
      cases h1 : evalDisplay e vm with
      | error err => rfl
      | ok p =>
          obtain ⟨c, vm1⟩ := p
          dsimp only
          cases h2 : evalList rest vm1 with
          | error err => rfl
          | ok q =>
              obtain ⟨cs, vm2⟩ := q
              dsimp only
              cases h3 : evalList l2 vm2 with
              | error err => rfl
              | ok r => rfl

/-! ### The claims -/

/-- **C10.** Evaluating an alignment-point node or a primes node is total and
infallible: in every evaluation context it returns `Ok` — the alignment-point
element, respectively the primes element carrying the written prime count —
and never an error. -/
theorem alignPoint_primes_infallible (sp sp' : Span) (n : Nat) (vm : Vm) :
    eval (.mathAlignPoint sp) vm = .ok (.content .alignPointElem, vm)
    ∧ eval (.mathPrimes n sp') vm = .ok (.content (.primesElem n), vm) :=
  ⟨by simp [eval], by simp [eval]⟩

/-- **C3.** Identifier resolution: when the identifier is absent from the math
scope, evaluation returns the unresolved-identifier error carrying exactly the
identifier's own span; when present, it returns exactly the mapped value (no
placeholder is substituted).  The evaluator is a total Lean function, so no
panic is possible. -/
theorem mathIdent_resolution (name : String) (sp : Span) (vm : Vm) :
    (vm.getInMath name = none →
        eval (.mathIdent name sp) vm = .error (.unresolvedIdentifier name sp))
    ∧ ∀ v, vm.getInMath name = some v → eval (.mathIdent name sp) vm = .ok (v, vm) := by
  constructor
  · intro h
    simp [eval, h]
  · intro v h
    simp [eval, h]

theorem mathIdent_resolution_witness :
    eval (.mathIdent "y" 5) vmX = .error (.unresolvedIdentifier "y" 5)
    ∧ eval (.mathIdent "x" 7) vmX = .ok (.str "ex", vmX) :=
  ⟨(mathIdent_resolution "y" 5 vmX).1 rfl,
   (mathIdent_resolution "x" 7 vmX).2 (.str "ex") rfl⟩

/-- **C5.** Lowering an expression to content is the single reusable
`eval_display` operation: whenever the expression evaluates to a value, the
lowered content is exactly the display coercion of that value, span-annotated
with the originating expression's own source span. -/
theorem evalDisplay_factors (e : Expr) (vm : Vm) (v : Value) (vm' : Vm)
    (h : eval e vm = .ok (v, vm')) :
    evalDisplay e vm = .ok (.spanned v.display e.span, vm') := by
  simp [evalDisplay, h]

theorem evalDisplay_factors_witness :
    evalDisplay (.mathIdent "x" 7) vmX
      = .ok (.spanned (Value.display (.str "ex")) (Expr.span (.mathIdent "x" 7)), vmX) :=
  evalDisplay_factors (.mathIdent "x" 7) vmX (.str "ex") vmX
    (by simp [eval, Vm.getInMath, vmX])

/-- **C4.** The builder is a pure function of its inputs: evaluation leaves
the Vm (and hence the math scope) exactly as it found it, so evaluating the
same expression tree a second time — from the state the first evaluation
produced — yields the structurally identical result. -/
theorem eval_pure_deterministic (e : Expr) (vm : Vm) (v : Value) (vm' : Vm)
    (h : eval e vm = .ok (v, vm')) :
    vm' = vm ∧ eval e vm' = .ok (v, vm') := by
  have hvm := eval_vm_eq e vm v vm' h
  subst hvm
  exact ⟨rfl, h⟩

theorem eval_pure_deterministic_witness :
    vmX = vmX ∧ eval (.mathIdent "x" 3) vmX = .ok (.str "ex", vmX) :=
  eval_pure_deterministic (.mathIdent "x" 3) vmX (.str "ex") vmX
    (by simp [eval, Vm.getInMath, vmX])

end TypstMath
namespace TypstMath

/-- **C2.** A failing sub-expression aborts the whole math span: if the
sub-expressions before `e` evaluate successfully and `e` fails with `err`,
evaluating the enclosing `Math` node returns exactly that error — an
`Except.error`, hence no content element at all is produced for the span. -/
theorem math_error_propagates (pre : List Expr) (e : Expr) (post : List Expr)
    (sp : Span) (vm : Vm) (cs : List Content) (vm1 : Vm) (err : Err)
    (hpre : evalList pre vm = .ok (cs, vm1))
    (he : evalDisplay e vm1 = .error err) :
    eval (.math (pre ++ e :: post) sp) vm = .error err := by
  have hl : evalList (pre ++ e :: post) vm = .error err := by
    rw [evalList_append]
    simp only [hpre]
    simp only [evalList, he]
  simp [eval, hl]

theorem math_error_propagates_witness :
    eval (.math ([] ++ (.mathIdent "q" 1) :: [.mathAlignPoint 2]) 0) vmX
      = .error (.unresolvedIdentifier "q" 1) :=
  math_error_propagates [] (.mathIdent "q" 1) [.mathAlignPoint 2] 0 vmX [] vmX
    (.unresolvedIdentifier "q" 1) (by simp [evalList])
    (by simp [evalDisplay, eval, Vm.getInMath, vmX])

/-- **C9.** A math node evaluates each child in order and concatenates the
results into one composite sequence element; moreover evaluating a
concatenated child list equals evaluating the two parts in order and
appending their results. -/
theorem math_sequence_concat (l : List Expr) (sp : Span) (vm : Vm) :
    (∀ cs vm1, evalList l vm = .ok (cs, vm1) →
        eval (.math l sp) vm = .ok (.content (Content.sequence cs), vm1))
    ∧ ∀ l2 : List Expr, evalList (l ++ l2) vm =
        match evalList l vm with
        | .error err => .error err
        | .ok (cs, vm1) =>
            match evalList l2 vm1 with
            | .error err => .error err
            | .ok (cs2, vm2) => .ok (cs ++ cs2, vm2) :=
  ⟨fun cs vm1 h => by simp [eval, h], fun l2 => evalList_append l l2 vm⟩

theorem math_sequence_concat_witness :
    eval (.math [.mathPrimes 2 5, .mathAlignPoint 6] 0) vmX
      = .ok (.content (Content.sequence
          [.spanned (.primesElem 2) 5, .spanned .alignPointElem 6]), vmX) :=
  (math_sequence_concat [.mathPrimes 2 5, .mathAlignPoint 6] 0 vmX).1
    [.spanned (.primesElem 2) 5, .spanned .alignPointElem 6] vmX
    (by simp [evalList, evalDisplay, eval, Value.display, Expr.span])

/-- **C6.** A delimited group evaluates to a delimited-group (`LrElem`)
element wrapping, in order: the literal opening glyph (as a text run carrying
the opening token's span), the built body, and the literal closing glyph. -/
theorem mathDelimited_lr (o c : String) (so sc sp : Span) (body : List Expr)
    (vm : Vm) (bcs : List Content) (vm1 : Vm)
    (h : evalList body vm = .ok (bcs, vm1)) :
    eval (.mathDelimited (.opening o so) body (.closing c sc) sp) vm =
      .ok (.content (.lrElem (.seq
        (.spanned (.text o) so :: bcs ++ [.spanned (.text c) sc]))), vm1) := by
  simp [eval, evalDisplay, h, Content.add, Content.toList, Content.sequence,
    Expr.span, Value.display]

theorem mathDelimited_lr_witness :
    eval (.mathDelimited (.opening "(" 1) [.mathIdent "x" 4] (.closing ")" 8) 0) vmX
      = .ok (.content (.lrElem (.seq
          (.spanned (.text "(") 1 :: [.spanned (.text "ex") 4]
            ++ [.spanned (.text ")") 8]))), vmX) :=
  mathDelimited_lr "(" ")" 1 8 0 [.mathIdent "x" 4] vmX [.spanned (.text "ex") 4] vmX
    (by simp [evalList, evalDisplay, eval, Vm.getInMath, vmX, Value.display, Expr.span])

end TypstMath
namespace TypstMath

/-- **C1 (counterexample).** For a base carrying both primes (count 2) and an
explicit superscript — the `a'^b` shape — the built attachment element fills
the `t` slot with the built superscript and keeps *no* record of the primes:
the `tr` slot is `none` and no primes-count element occurs in the output,
refuting "the prime count is still recorded for layout purposes". -/
theorem mathAttach_primes_dropped_cex :
    eval (.mathAttach (.ext (.ok (.str "a")) 0) (some (.ext (.ok (.str "b")) 1))
        (some 2) none 9) vmX
      = .ok (.content (.attachElem (.spanned (.text "a") 0)
          (some (.spanned (.text "b") 1)) none none), vmX) := by
  simp [eval, evalAttachTops, evalAttachBottom, evalDisplay, Value.display, Expr.span]

/-- **C1 (amended).** The superscript slots of an attachment node: when an
explicit superscript is written it fills the `t` slot and any primes are
discarded entirely — evaluation coincides with that of the same node without
primes; when primes are present without an explicit superscript they fill the
top-right slot `tr` packaged as a primes-count element (never as built
superscript content), after which the subscript is processed as usual. -/
theorem mathAttach_superscript_slots (base e : Expr) (pr : Option Nat) (n : Nat)
    (bottom : Option Expr) (sp : Span) (vm : Vm) :
    (eval (.mathAttach base (some e) pr bottom sp) vm
        = eval (.mathAttach base (some e) none bottom sp) vm)
    ∧ ∀ bc vm1, evalDisplay base vm = .ok (bc, vm1) →
        eval (.mathAttach base none (some n) bottom sp) vm
          = evalAttachBottom bc none (some (.primesElem n)) bottom vm1 := by
  constructor
  · simp only [eval]
    cases hb : evalDisplay base vm with
    | error err => rfl
    | ok p =>
        obtain ⟨bc, vm1⟩ := p
        simp [evalAttachTops]
  · intro bc vm1 hb
    simp [eval, hb, evalAttachTops]

theorem mathAttach_superscript_slots_witness :
    (eval (.mathAttach (.ext (.ok (.str "a")) 0) (some (.ext (.ok (.str "b")) 1))
        (some 7) none 9) vmX
      = eval (.mathAttach (.ext (.ok (.str "a")) 0) (some (.ext (.ok (.str "b")) 1))
        none none 9) vmX)
    ∧ eval (.mathAttach (.ext (.ok (.str "a")) 0) none (some 2) none 9) vmX
        = evalAttachBottom (.spanned (.text "a") 0) none (some (.primesElem 2)) none vmX :=
  ⟨(mathAttach_superscript_slots (.ext (.ok (.str "a")) 0) (.ext (.ok (.str "b")) 1)
      (some 7) 2 none 9 vmX).1,
   (mathAttach_superscript_slots (.ext (.ok (.str "a")) 0) (.ext (.ok (.str "b")) 1)
      (some 7) 2 none 9 vmX).2 (.spanned (.text "a") 0) vmX
      (by simp [evalDisplay, eval, Value.display, Expr.span])⟩

/-- **C7 (counterexample).** Evaluating a root whose glyph carries the numeric
index 3 (the `∛x` shape): the index slot of the built root element holds the
plain text run `"3"` produced by numeric formatting.  That text run carries no
span annotation, while every content produced by building a sub-expression is
span-annotated (`eval_display`), so the index is not built sub-expression
content — refuting "the index being an optional sub-expression … built". -/
theorem mathRoot_index_cex :
    eval (.mathRoot (some 3) (.ext (.ok (.str "x")) 7) 9) vmX
      = .ok (.content (.rootElem (some (.text "3")) (.spanned (.text "x") 7)), vmX)
    ∧ (Content.text "3").isSpanned = false := by
  constructor
  · simp [eval, evalDisplay, Value.display, Expr.span]
    rfl
  · rfl

/-- **C7 (amended).** A root node builds the radicand and converts its
optional numeric index — a number read off the radical glyph
(`Option<usize>`), not a sub-expression — into a literal text run; both are
packaged as a root element. -/
theorem mathRoot_eval (index : Option Nat) (radicand : Expr) (sp : Span)
    (vm : Vm) (rc : Content) (vm1 : Vm)
    (h : evalDisplay radicand vm = .ok (rc, vm1)) :
    eval (.mathRoot index radicand sp) vm
      = .ok (.content (.rootElem (index.map fun i => .text (toString i)) rc), vm1) := by
  simp [eval, h]

theorem mathRoot_eval_witness :
    eval (.mathRoot (some 3) (.mathIdent "x" 7) 9) vmX
      = .ok (.content (.rootElem ((some 3).map fun i => Content.text (toString i))
          (.spanned (.text "ex") 7)), vmX) :=
  mathRoot_eval (some 3) (.mathIdent "x" 7) 9 vmX (.spanned (.text "ex") 7) vmX
    (by simp [evalDisplay, eval, Vm.getInMath, vmX, Value.display, Expr.span])

/-- **C8 (counterexample).** `pi` is a multi-character atom, so by the
tie-break `pi(x)` parses as a function call — not as the juxtaposition
sequence the claim's example asserts. -/
theorem callTieBreak_pi_cex :
    callTieBreak "pi" (.atom "x") = .call (.atom "pi") [.atom "x"]
    ∧ callTieBreak "pi" (.atom "x") ≠ .sequence [.atom "pi", .group (.atom "x")] := by
  have h1 : callTieBreak "pi" (.atom "x") = .call (.atom "pi") [.atom "x"] := rfl
  refine ⟨h1, fun h => ?_⟩
  rw [h1] at h
  exact ExprNode.noConfusion h

/-- **C8 (amended).** The call-vs-juxtaposition tie-break: an atom of more
than one character immediately followed by a parenthesized group is a function
call (so `pi(x)` and `sin(x)` are calls), while a single-character atom
followed by a paren group is plain juxtaposition of the atom and the group
(e.g. `f(x)`). -/
theorem callTieBreak_spec (s : String) (g : ExprNode) :
    (1 < s.length → callTieBreak s g = .call (.atom s) [g])
    ∧ (s.length ≤ 1 → callTieBreak s g = .sequence [.atom s, .group g]) := by
  constructor
  · intro h
    simp [callTieBreak, h]
  · intro h
    simp [callTieBreak, Nat.not_lt.mpr h]

theorem callTieBreak_spec_witness :
    callTieBreak "sin" (.atom "x") = .call (.atom "sin") [.atom "x"]
    ∧ callTieBreak "f" (.atom "x") = .sequence [.atom "f", .group (.atom "x")] :=
  ⟨(callTieBreak_spec "sin" (.atom "x")).1 (by decide),
   (callTieBreak_spec "f" (.atom "x")).2 (by decide)⟩

end TypstMath
